import Mathlib

/-!
# Verification of the winewarden supervisor core

Shallow embedding of the path-redirection engine, policy rules, trust
scoring and seccomp notification handler of the winewarden repository,
with theorems settling the specification claims.

Paths are modelled as lists of components (Rust `Path` comparisons —
`starts_with`, `strip_prefix`, `join` — are component-wise).
-/

namespace Winewarden

/-- A filesystem path, as its list of components (absolute; the leading
`/` is implicit, so `/home/user` is `["home", "user"]`). -/
abbrev FsPath := List String

/-- Rendered byte length of an absolute path (`Path::as_os_str().len()`):
`/` plus components joined by `/`. Used as the sort key in
`PathMapper::sort_mappings`. -/
def osStrLen (p : FsPath) : Nat :=
  match p with
  | [] => 1
  | cs => cs.foldl (fun acc c => acc + 1 + c.length) 0

/-- `PathMapper` from `monitor/src/path_redirect.rs`: prefix-replacement
rules, kept sorted by source length descending. -/
structure PathMapper where
  mappings : List (FsPath × FsPath)
deriving Repr

/-- Insert one mapping into a list sorted by source `osStrLen` descending
(the comparator of `sort_mappings`). -/
def insertDesc (x : FsPath × FsPath) : List (FsPath × FsPath) → List (FsPath × FsPath)
  | [] => [x]
  | y :: ys => if osStrLen y.1 ≤ osStrLen x.1 then x :: y :: ys else y :: insertDesc x ys

/-- `PathMapper::sort_mappings`: stable sort by source length descending. -/
def sortMappings (l : List (FsPath × FsPath)) : List (FsPath × FsPath) :=
  l.foldr insertDesc []

/-- `PathMapper::with_mappings`. -/
def PathMapper.with_mappings (mappings : List (FsPath × FsPath)) : PathMapper :=
  { mappings := sortMappings mappings }

/-- The scan inside `PathMapper::map_path`: first mapping whose source
is a component prefix of `original` wins (`strip_prefix` succeeds);
the result is `dest.join(stripped remainder)`. -/
def mapPathGo (original : FsPath) : List (FsPath × FsPath) → Option FsPath
  | [] => none
  | (source, dest) :: rest =>
    if source.isPrefixOf original then some (dest ++ original.drop source.length)
    else mapPathGo original rest

/-- `PathMapper::map_path`. -/
def PathMapper.map_path (m : PathMapper) (original : FsPath) : Option FsPath :=
  mapPathGo original m.mappings

/-- `Path::parent`: drop the last component; `None` at the root. -/
def FsPath.parent (p : FsPath) : Option FsPath :=
  match p with
  | [] => none
  | _ => some p.dropLast

/-! ## Copy-on-write tracker (`monitor/src/path_redirect.rs`)

Filesystem side effects (`exists`, `metadata`, `create_dir_all`,
`set_permissions`, `copy`) are abstracted into an oracle `FsWorld`
recording, for each operation, whether it succeeds; the tracker's own
state (the `copied` map) is explicit. -/

/-- Oracle for the filesystem operations `CopyOnWrite` performs. -/
structure FsWorld where
  /-- `Path::exists`. -/
  pathExists : FsPath → Bool
  /-- whether `fs::metadata` succeeds on the path. -/
  metadataOk : FsPath → Bool
  /-- `Metadata::is_dir`. -/
  isDir : FsPath → Bool
  /-- whether `fs::create_dir_all` succeeds on the path. -/
  createDirAllOk : FsPath → Bool
  /-- whether `fs::set_permissions` succeeds on the path. -/
  setPermsOk : FsPath → Bool
  /-- whether `fs::copy original virtual` succeeds. -/
  copyOk : FsPath → FsPath → Bool

/-- `CopyOnWrite`: the `original → materialized` map, as an association
list (the code uses a `HashMap`; it inserts a key only when absent, so
first-match lookup is equivalent). -/
structure CopyOnWrite where
  copied : List (FsPath × FsPath)

/-- `HashMap::get` on the `copied` map. -/
def lookupCopied (m : List (FsPath × FsPath)) (k : FsPath) : Option FsPath :=
  match m with
  | [] => none
  | (k', v) :: rest => if k' = k then some v else lookupCopied rest k

/-- `CopyOnWrite::ensure_dir_exists`: ok when the path exists or
`create_dir_all` succeeds. -/
def ensure_dir_exists (w : FsWorld) (p : FsPath) : Bool :=
  w.pathExists p || w.createDirAllOk p

/-- `CopyOnWrite::copy_on_write`: materializes `original` at
`virtual_path`, recording the mapping on success. -/
def CopyOnWrite.copy_on_write (cow : CopyOnWrite) (w : FsWorld)
    (original virtual_path : FsPath) : Except String FsPath × CopyOnWrite :=
  if !w.pathExists original then
    -- creating a new file: ensure parents of the virtual path, record
    match FsPath.parent virtual_path with
    | some parent =>
      if ensure_dir_exists w parent then
        (.ok virtual_path, ⟨(original, virtual_path) :: cow.copied⟩)
      else (.error "ensure_dir_exists failed", cow)
    | none => (.ok virtual_path, ⟨(original, virtual_path) :: cow.copied⟩)
  else if !w.metadataOk original then (.error "fs::metadata failed", cow)
  else if w.isDir original then
    if ensure_dir_exists w virtual_path then
      if w.setPermsOk virtual_path then
        (.ok virtual_path, ⟨(original, virtual_path) :: cow.copied⟩)
      else (.error "fs::set_permissions failed", cow)
    else (.error "ensure_dir_exists failed", cow)
  else
    match FsPath.parent virtual_path with
    | some parent =>
      if ensure_dir_exists w parent then
        if w.copyOk original virtual_path then
          (.ok virtual_path, ⟨(original, virtual_path) :: cow.copied⟩)
        else (.error "fs::copy failed", cow)
      else (.error "ensure_dir_exists failed", cow)
    | none =>
      if w.copyOk original virtual_path then
        (.ok virtual_path, ⟨(original, virtual_path) :: cow.copied⟩)
      else (.error "fs::copy failed", cow)

/-- `CopyOnWrite::resolve_write_path`. -/
def CopyOnWrite.resolve_write_path (cow : CopyOnWrite) (w : FsWorld)
    (original virtual_path : FsPath) (is_write : Bool) :
    Except String FsPath × CopyOnWrite :=
  match lookupCopied cow.copied original with
  | some copied_path => (.ok copied_path, cow)
  | none =>
    if !is_write then (.ok virtual_path, cow)
    else cow.copy_on_write w original virtual_path

/-- A sequence of `resolve_write_path` calls (each with its own
filesystem state), threading the tracker. -/
def runResolves : List (FsWorld × FsPath × FsPath × Bool) → CopyOnWrite → CopyOnWrite
  | [], cow => cow
  | (w, o, v, iw) :: rest, cow =>
    runResolves rest (cow.resolve_write_path w o v iw).2

/-! ## Policy decisions and sacred zones
(`policy-engine/src/decision.rs`, `winewarden-core/src/paths.rs`,
`policy-engine/src/rules/filesystem.rs`) -/

/-- `DecisionAction`. -/
inductive DecisionAction where
  | Allow
  | Deny
  | Redirect (target : FsPath)
  | Virtualize (target : FsPath)
deriving DecidableEq, Repr

/-- `PolicyDecision`. -/
structure PolicyDecision where
  action : DecisionAction
  reason : String
  zone_label : Option String
  systemic_risk : Bool
deriving DecidableEq, Repr

/-- `PathAction` (per sacred zone). -/
inductive PathAction where
  | Allow
  | Deny
  | Redirect
  | Virtualize
deriving DecidableEq, Repr

/-- `SacredZone`. -/
structure SacredZone where
  label : String
  path : FsPath
  action : PathAction
  redirect_to : Option FsPath
deriving DecidableEq, Repr

/-- `SacredZone::matches`: the candidate starts with the zone path
(component-wise). -/
def SacredZone.matches (z : SacredZone) (candidate : FsPath) : Bool :=
  z.path.isPrefixOf candidate

/-- `zones::redirects::fallback_redirect`, abstracted as a fixed path:
its concrete value never decides a claim. -/
def fallback_redirect : FsPath := ["tmp", "winewarden", "redirect"]

/-- `rules::filesystem::apply_zone_rule`. -/
def apply_zone_rule (zone : SacredZone) : PolicyDecision :=
  match zone.action with
  | .Allow =>
    { action := .Allow
      reason := "Access allowed: " ++ zone.label
      zone_label := some zone.label
      systemic_risk := false }
  | .Deny =>
    { action := .Deny
      reason := "Access denied: " ++ zone.label
      zone_label := some zone.label
      systemic_risk := true }
  | .Redirect =>
    let redirect_to := zone.redirect_to.getD fallback_redirect
    { action := .Redirect redirect_to
      reason := "Access redirected: " ++ zone.label
      zone_label := some zone.label
      systemic_risk := true }
  | .Virtualize =>
    let redirect_to := zone.redirect_to.getD fallback_redirect
    { action := .Virtualize redirect_to
      reason := "Access virtualized: " ++ zone.label
      zone_label := some zone.label
      systemic_risk := true }

/-- `rules::filesystem::evaluate_path`. -/
def evaluate_path (path : FsPath) (prefix_root : FsPath) (zones : List SacredZone) :
    PolicyDecision :=
  match zones with
  | zone :: rest =>
    if zone.matches path then apply_zone_rule zone
    else evaluate_path path prefix_root rest
  | [] =>
    if !prefix_root.isPrefixOf path then
      { action := .Deny
        reason := "Access outside prefix blocked"
        zone_label := some "Prefix boundary"
        systemic_risk := true }
    else
      { action := .Allow
        reason := "Access within prefix allowed"
        zone_label := none
        systemic_risk := false }

/-! ## Process rules (`policy-engine/src/rules/process.rs`)

Rust strings are modelled as `String` at the interface with `List Char`
internals; `str::to_lowercase` is modelled as per-character
`Char.toLower` (they agree on ASCII, which is all the code's built-in
pattern tables use). -/

/-- Leftmost index of an occurrence of `pat` in `hay` (`str::find`),
counted in characters. -/
def findSub (hay pat : List Char) : Option Nat :=
  if pat.isPrefixOf hay then some 0
  else
    match hay with
    | [] => none
    | _ :: t => (findSub t pat).map (· + 1)

/-- Substring containment (`str::contains`). -/
def containsSub (hay pat : List Char) : Bool :=
  (findSub hay pat).isSome

/-- `str::split('*')` (always at least one part; a separator at either
end yields an empty part there). -/
def splitOnStar : List Char → List (List Char)
  | [] => [[]]
  | c :: cs =>
    match splitOnStar cs with
    | [] => [[]]
    | p :: ps => if c = '*' then [] :: p :: ps else (c :: p) :: ps

/-- The wildcard-part loop of `matches_pattern`, with the original
index bookkeeping replaced by structurally equivalent state: `seen` is
true iff a non-empty part has been processed (so `is_first` is
`!seen`), and `is_last` is "all remaining parts are empty". -/
def matchGo (startsStar endsStar : Bool) (nameL : List Char) :
    List (List Char) → Bool → Nat → Bool
  | [], _, _ => true
  | part :: rest, seen, pos =>
    if part.isEmpty then matchGo startsStar endsStar nameL rest seen pos
    else if !seen && !startsStar then
      -- first non-empty part, pattern not starting with '*': anchor at start
      if part.isPrefixOf nameL then
        matchGo startsStar endsStar nameL rest true part.length
      else false
    else if rest.all (·.isEmpty) && !endsStar then
      -- last non-empty part, pattern not ending with '*': anchor at end
      part.isSuffixOf nameL
    else
      match findSub (nameL.drop pos) part with
      | some found => matchGo startsStar endsStar nameL rest true (pos + found + part.length)
      | none => false

/-- `rules::process::matches_pattern`. -/
def matches_pattern (name pattern : String) : Bool :=
  let name_lower := name.toList.map Char.toLower
  let pattern_lower := pattern.toList.map Char.toLower
  if !pattern_lower.contains '*' then name_lower = pattern_lower
  else
    matchGo (pattern_lower.head? = some '*') (pattern_lower.getLast? = some '*')
      name_lower (splitOnStar pattern_lower) false 0

/-- Glob semantics as the specification states them: `*` matches any
(possibly empty) run of characters, everything else matches itself, and
the whole pattern must cover the whole name. This is the spec-side
definition `matches_pattern` is compared against. -/
def globMatch : List Char → List Char → Bool
  | [], n => n.isEmpty
  | p :: ps, n =>
    if p = '*' then
      -- a star consumes any (possibly empty) run of leading characters
      (List.range (n.length + 1)).any fun i => globMatch ps (n.drop i)
    else
      match n with
      | [] => false
      | x :: xs => p = x && globMatch ps xs

/-- The pattern text reassembled from its star-separated parts:
`joinStar (splitOnStar l) = l`. -/
def joinStar : List (List Char) → List Char
  | [] => []
  | [p] => p
  | p :: q :: ps => p ++ '*' :: joinStar (q :: ps)

/-- Decomposition semantics of a star-separated pattern: the name is
the parts in order, separated by arbitrary (possibly empty) gaps, and
anchored at both ends (a `[]` part at an end makes that anchor
vacuous). -/
def JoinStar : List (List Char) → List Char → Prop
  | [], n => n = []
  | [p], n => n = p
  | p :: q :: ps, n => ∃ g m, n = p ++ g ++ m ∧ JoinStar (q :: ps) m

/-- `rules::process::is_shell` (substring match against shell names). -/
def is_shell (process : String) : Bool :=
  let shell_names : List String :=
    ["sh", "bash", "zsh", "fish", "dash", "csh", "tcsh", "powershell",
     "pwsh", "cmd.exe", "command.com"]
  let proc_lower := process.toList.map Char.toLower
  shell_names.any (fun shell => containsSub proc_lower shell.toList)

/-- `rules::process::is_script` (suffix match against script extensions). -/
def is_script (process : String) : Bool :=
  let script_exts : List String :=
    [".sh", ".bash", ".zsh", ".fish", ".py", ".pyw", ".pyc", ".pl", ".pm",
     ".rb", ".js", ".jsx", ".ps1", ".psm1", ".bat", ".cmd", ".vbs", ".wsf"]
  let proc_lower := process.toList.map Char.toLower
  script_exts.any (fun ext => ext.toList.isSuffixOf proc_lower)

/-- `config::ProcessConfig` (the fields `evaluate_process_spawn` reads). -/
structure ProcessConfig where
  allowed_patterns : List String
  blocked_patterns : List String
  max_child_processes : Nat
  allow_shell_execution : Bool
  allow_script_execution : Bool
deriving Repr

/-- `rules::process::ProcessTracker`. -/
structure ProcessTracker where
  child_count : Nat
  process_counts : List (String × Nat)
  allowed : List String
  denied : List String
deriving Repr

/-- `ProcessTracker::new`. -/
def ProcessTracker.new : ProcessTracker :=
  { child_count := 0, process_counts := [], allowed := [], denied := [] }

/-- Bump the per-name counter (`*map.entry(name).or_insert(0) += 1`). -/
def bumpCount (name : String) : List (String × Nat) → List (String × Nat)
  | [] => [(name, 1)]
  | (k, v) :: rest =>
    if k = name then (k, v + 1) :: rest else (k, v) :: bumpCount name rest

/-- `ProcessTracker::record_attempt`. -/
def ProcessTracker.record_attempt (t : ProcessTracker) (process : String)
    (allowed : Bool) : ProcessTracker :=
  if allowed then
    { t with
      allowed := t.allowed ++ [process]
      child_count := t.child_count + 1
      process_counts := bumpCount process t.process_counts }
  else
    { t with denied := t.denied ++ [process] }

/-- `ProcessTracker::would_exceed_limit` (`child_count >= limit`). -/
def ProcessTracker.would_exceed_limit (t : ProcessTracker) (limit : Nat) : Bool :=
  limit ≤ t.child_count

/-- `rules::process::evaluate_process_spawn`: returns the decision and
the updated tracker. -/
def evaluate_process_spawn (process : String) (config : ProcessConfig)
    (tracker : ProcessTracker) : PolicyDecision × ProcessTracker :=
  -- Check 1: child process limit
  if tracker.would_exceed_limit config.max_child_processes then
    ({ action := .Deny
       reason := "Child process limit exceeded (max: " ++
         toString config.max_child_processes ++ ")"
       zone_label := some "Process Limits"
       systemic_risk := true }, tracker)
  else
    -- Check 2: blocked patterns (first matching pattern denies)
    match config.blocked_patterns.find? (fun pat => matches_pattern process pat) with
    | some pattern =>
      ({ action := .Deny
         reason := "Process blocked by pattern '" ++ pattern ++ "'"
         zone_label := some "Process Security"
         systemic_risk := true }, tracker.record_attempt process false)
    | none =>
    -- Check 3: shell execution
    if is_shell process && !config.allow_shell_execution then
    ({ action := .Deny
       reason := "Shell execution not allowed"
       zone_label := some "Process Security"
       systemic_risk := true }, tracker.record_attempt process false)
    -- Check 4: script execution
    else if is_script process && !config.allow_script_execution then
      ({ action := .Deny
         reason := "Script execution not allowed"
         zone_label := some "Process Security"
         systemic_risk := true }, tracker.record_attempt process false)
    -- Check 5: allowed patterns (if any are defined)
    else if !config.allowed_patterns.isEmpty &&
        !config.allowed_patterns.any (fun pat => matches_pattern process pat) then
      ({ action := .Deny
         reason := "Process '" ++ process ++ "' not in allowed patterns"
         zone_label := some "Process Security"
         systemic_risk := true }, tracker.record_attempt process false)
    else
      ({ action := .Allow
         reason := "Process allowed: " ++ process
         zone_label := some "Process"
         systemic_risk := false }, tracker.record_attempt process true)

/-- Run `evaluate_process_spawn` over a whole list of spawn attempts. -/
def runSpawns (config : ProcessConfig) (tracker : ProcessTracker) :
    List String → ProcessTracker
  | [] => tracker
  | p :: ps => runSpawns config (evaluate_process_spawn p config tracker).2 ps

/-! ## Trust scoring (`policy-engine/src/trust/scoring.rs`)

`f32` arithmetic is modelled as exact rational arithmetic over an
explicit (unnormalized) fraction type `Frac`: the configured weight
constants become the decimal rationals they are written as. Every
claim about this module is settled by evaluation at inputs where all
`f32` operations are exact (products that are integers or zero), where
the two semantics coincide. All denominators constructed below are
positive (they are products of the literal constants 1, 5, 10, 20).
`i32` arithmetic is modelled on `Int` (no evaluated input approaches
`i32` overflow), and the `score as u32` cast is the two's-complement
wrap `i32ToU32`. -/

/-- `TrustTier` (`winewarden-core/src/trust.rs`). -/
inductive TrustTier where
  | Red
  | Yellow
  | Green
deriving DecidableEq, Repr

/-- An exact (unnormalized) fraction; the denominator is kept positive
by construction. -/
structure Frac where
  num : Int
  den : Int
deriving DecidableEq, Repr

/-- Embed an integer (`x as f32` for integer-valued `x`). -/
def Frac.ofInt (n : Int) : Frac := ⟨n, 1⟩

/-- `f32` multiplication. -/
def Frac.mul (a b : Frac) : Frac := ⟨a.num * b.num, a.den * b.den⟩

/-- `f32` addition. -/
def Frac.add (a b : Frac) : Frac :=
  ⟨a.num * b.den + b.num * a.den, a.den * b.den⟩

/-- `f32` subtraction. -/
def Frac.sub (a b : Frac) : Frac :=
  ⟨a.num * b.den - b.num * a.den, a.den * b.den⟩

/-- `f32` division by a positive constant. -/
def Frac.divC (a : Frac) (c : Int) : Frac := ⟨a.num, a.den * c⟩

/-- `x < 0.0` (denominators are positive by construction). -/
def Frac.isNeg (a : Frac) : Bool := a.num < 0

/-- The `as i32` cast of an `f32` value: truncation toward zero. -/
def Frac.trunc (a : Frac) : Int := a.num.tdiv a.den

/-- Rendering of an `f32` in a note (`{:.1}` formatting abstracted;
no claim inspects these strings beyond list emptiness). -/
def Frac.render (a : Frac) : String := toString a.num ++ "/" ++ toString a.den

/-- The `as u32` cast of an `i32` value: two's-complement wrap. -/
def i32ToU32 (z : Int) : Nat :=
  (z.emod 4294967296).toNat

/-- `TrustScoringConfig`. -/
structure TrustScoringConfig where
  suspicion_threshold : Nat
  network_activity_weight : Frac
  filesystem_activity_weight : Frac
  process_activity_weight : Frac
  sensitive_path_penalty : Int
  outbound_connection_penalty : Int
  child_process_penalty : Int
  consistency_bonus : Int
deriving Repr

/-- `TrustScoringConfig::default` (0.4 and 0.3 as the decimal
rationals they denote). -/
def TrustScoringConfig.default : TrustScoringConfig :=
  { suspicion_threshold := 50
    network_activity_weight := ⟨4, 10⟩
    filesystem_activity_weight := ⟨3, 10⟩
    process_activity_weight := ⟨3, 10⟩
    sensitive_path_penalty := -10
    outbound_connection_penalty := -5
    child_process_penalty := -3
    consistency_bonus := 5 }

/-- `BehaviorProfile`. -/
structure BehaviorProfile where
  sensitive_path_attempts : Nat
  unique_destinations : Nat
  dns_query_count : Nat
  child_process_count : Nat
  file_modifications : Nat
  denied_attempts : Nat
  suspicious_patterns : List String
deriving DecidableEq, Repr

/-- `BehaviorProfile::new` (the all-zero default). -/
def BehaviorProfile.new : BehaviorProfile :=
  { sensitive_path_attempts := 0
    unique_destinations := 0
    dns_query_count := 0
    child_process_count := 0
    file_modifications := 0
    denied_attempts := 0
    suspicious_patterns := [] }

/-- `BehaviorProfile::record_sensitive_path`. -/
def BehaviorProfile.record_sensitive_path (p : BehaviorProfile) (path : String) :
    BehaviorProfile :=
  { p with
    sensitive_path_attempts := p.sensitive_path_attempts + 1
    suspicious_patterns := p.suspicious_patterns ++ ["Accessed: " ++ path] }

/-- `BehaviorProfile::record_outbound_connection`. -/
def BehaviorProfile.record_outbound_connection (p : BehaviorProfile) (host : String) :
    BehaviorProfile :=
  let p := { p with unique_destinations := p.unique_destinations + 1 }
  if 10 < p.unique_destinations then
    { p with suspicious_patterns := p.suspicious_patterns ++ ["Many connections: " ++ host] }
  else p

/-- `BehaviorProfile::record_child_process`. -/
def BehaviorProfile.record_child_process (p : BehaviorProfile) (process : String) :
    BehaviorProfile :=
  let p := { p with child_process_count := p.child_process_count + 1 }
  if 20 < p.child_process_count then
    { p with suspicious_patterns := p.suspicious_patterns ++ ["Process spawning: " ++ process] }
  else p

/-- `BehaviorProfile::record_denied_attempt`. -/
def BehaviorProfile.record_denied_attempt (p : BehaviorProfile) (reason : String) :
    BehaviorProfile :=
  { p with
    denied_attempts := p.denied_attempts + 1
    suspicious_patterns := p.suspicious_patterns ++ ["Blocked: " ++ reason] }

/-- `BehaviorProfile::record_file_modification`. -/
def BehaviorProfile.record_file_modification (p : BehaviorProfile) : BehaviorProfile :=
  { p with file_modifications := p.file_modifications + 1 }

/-- `BehaviorProfile::is_suspicious`. -/
def BehaviorProfile.is_suspicious (p : BehaviorProfile) : Bool :=
  0 < p.sensitive_path_attempts || 5 < p.denied_attempts ||
    !p.suspicious_patterns.isEmpty

/-- `TrustScore`. -/
structure TrustScore where
  score : Nat
  recommended_tier : TrustTier
  assessment : String
  notes : List String
  is_suspicious : Bool
deriving DecidableEq, Repr

/-- `TrustScore::tier_from_score`. -/
def tier_from_score (score : Nat) : TrustTier :=
  if score ≤ 25 then .Red
  else if score ≤ 75 then .Yellow
  else if score ≤ 100 then .Green
  else .Yellow -- unreachable after clamping, kept from the source

/-- `TrustScore::assessment_from_score`. -/
def assessment_from_score (score : Nat) : String :=
  if 90 ≤ score ∧ score ≤ 100 then "Excellent - Consistent trustworthy behavior"
  else if 75 ≤ score ∧ score ≤ 89 then "Good - Normal behavior patterns"
  else if 50 ≤ score ∧ score ≤ 74 then "Fair - Some unusual activity detected"
  else if 25 ≤ score ∧ score ≤ 49 then "Poor - Suspicious behavior observed"
  else if score ≤ 24 then "Critical - High risk activity detected"
  else "Unknown"

/-- `TrustScore::new` (takes the already-cast `u32`; `clamp(0, 100)` on
a `u32` reduces to the upper clamp). -/
def TrustScore.new (score : Nat) (notes : List String) : TrustScore :=
  let clamped_score := min score 100
  { score := clamped_score
    recommended_tier := tier_from_score clamped_score
    assessment := assessment_from_score clamped_score
    notes := notes
    is_suspicious := clamped_score < 50 }

/-- `calculate_network_score`. -/
def calculate_network_score (profile : BehaviorProfile) (config : TrustScoringConfig) : Frac :=
  let score : Frac := .ofInt 0
  let score := if 10 < profile.unique_destinations then
      score.add ((Frac.ofInt config.outbound_connection_penalty).mul
        ((Frac.ofInt profile.unique_destinations).divC 10))
    else score
  if 50 < profile.dns_query_count then
    score.sub ((Frac.ofInt ((profile.dns_query_count : Int) - 50)).divC 5)
  else score

/-- `calculate_filesystem_score`. -/
def calculate_filesystem_score (profile : BehaviorProfile) (config : TrustScoringConfig) : Frac :=
  let score : Frac := .ofInt 0
  let score := if 0 < profile.sensitive_path_attempts then
      score.add ((Frac.ofInt config.sensitive_path_penalty).mul
        (Frac.ofInt profile.sensitive_path_attempts))
    else score
  if 100 < profile.file_modifications then
    score.sub ((Frac.ofInt ((profile.file_modifications : Int) - 100)).divC 20)
  else score

/-- `calculate_process_score`. -/
def calculate_process_score (profile : BehaviorProfile) (config : TrustScoringConfig) : Frac :=
  let score : Frac := .ofInt 0
  if 10 < profile.child_process_count then
    score.add ((Frac.ofInt config.child_process_penalty).mul
      ((Frac.ofInt profile.child_process_count).divC 10))
  else score

/-- The body of `calculate_trust_score` up to (but not including) the
`TrustScore::new(score as u32, notes)` call: the raw `i32` score and
the notes list. (The exact `{:.1}` float formatting inside the note
strings is abstracted to `toString` of the rational; no claim inspects
these strings beyond emptiness.) -/
def trust_score_raw (current_tier : TrustTier) (profile : BehaviorProfile)
    (config : TrustScoringConfig) : Int × List String :=
  let score : Int := 75
  let notes : List String := []
  let score := score + (match current_tier with
    | .Green => 15
    | .Yellow => 0
    | .Red => -15)
  let network_score := calculate_network_score profile config
  let score := score + (network_score.mul config.network_activity_weight).trunc
  let notes := if network_score.isNeg then
      notes ++ ["Network activity penalty: " ++ network_score.render]
    else notes
  let fs_score := calculate_filesystem_score profile config
  let score := score + (fs_score.mul config.filesystem_activity_weight).trunc
  let notes := if fs_score.isNeg then
      notes ++ ["Filesystem activity penalty: " ++ fs_score.render]
    else notes
  let process_score := calculate_process_score profile config
  let score := score + (process_score.mul config.process_activity_weight).trunc
  let denied := if 0 < profile.denied_attempts then
      let denied_penalty : Int := -((profile.denied_attempts : Int) * 3)
      (score + denied_penalty,
        notes ++ ["Denied access attempts (" ++ toString profile.denied_attempts ++
          "): " ++ toString denied_penalty])
    else (score, notes)
  let score := denied.1
  let notes := denied.2
  let bonus := if !profile.is_suspicious && profile.denied_attempts = 0 then
      (score + config.consistency_bonus,
        notes ++ ["Consistency bonus: +" ++ toString config.consistency_bonus])
    else (score, notes)
  let score := bonus.1
  let notes := bonus.2
  let notes := notes ++ profile.suspicious_patterns.map (fun p => "Suspicious: " ++ p)
  (score, notes)

/-- `calculate_trust_score`: wraps the raw `i32` score through the
`as u32` cast into `TrustScore::new`. -/
def calculate_trust_score (current_tier : TrustTier) (profile : BehaviorProfile)
    (config : TrustScoringConfig) : TrustScore :=
  let raw := trust_score_raw current_tier profile config
  TrustScore.new (i32ToU32 raw.1) raw.2

/-! ## Seccomp notification handler (`monitor/src/seccomp_handler.rs`)

The kernel ioctls, child-memory reads and the policy engine's
`evaluate` call are abstracted into a `MonitorWorld` oracle; the
argument decoding, sockaddr parsing and response construction are
embedded from the source. The target is x86_64 (the source hardcodes
x86_64 syscall numbers), so `NativeEndian` is little-endian.
Wall-clock timestamps on `AccessAttempt` are omitted. -/

/-- A byte as read from child memory. -/
abbrev Byte := Fin 256

/-- `AccessKind` (`winewarden-core/src/types.rs`). -/
inductive AccessKind where
  | Read
  | Write
  | Execute
  | Network
  | Device
  | SystemSocket
deriving DecidableEq, Repr

/-- `NetworkTarget`. -/
structure NetworkTarget where
  host : String
  port : Nat
  protocol : String
deriving DecidableEq, Repr

/-- `AccessTarget`. -/
inductive AccessTarget where
  | Path (p : FsPath)
  | Network (t : NetworkTarget)
  | Device (name : String)
  | Socket (name : String)
deriving DecidableEq, Repr

/-- `AccessAttempt` (without the wall-clock `timestamp` field). -/
structure AccessAttempt where
  kind : AccessKind
  target : AccessTarget
  note : Option String
deriving DecidableEq, Repr

/-- `SeccompData`: syscall number, arch, instruction pointer, six
`u64` arguments (`arg i` reads `args[i]`). -/
structure SeccompData where
  nr : Int
  arch : Nat
  instruction_pointer : Nat
  args : List Nat
deriving Repr

/-- `data.args[i]`. -/
def SeccompData.arg (d : SeccompData) (i : Nat) : Nat :=
  d.args.getD i 0

/-- `SeccompNotif`. -/
structure SeccompNotif where
  id : Nat
  pid : Nat
  flags : Nat
  data : SeccompData
deriving Repr

/-- `SeccompNotifResp`. -/
structure SeccompNotifResp where
  id : Nat
  val : Int
  error : Int
  flags : Nat
deriving DecidableEq, Repr

/-- Syscall numbers (x86_64), as in the source. -/
def SYS_CONNECT : Int := 42
def SYS_BIND : Int := 49
def SYS_OPEN : Int := 2
def SYS_OPENAT : Int := 257
def SYS_OPENAT2 : Int := 437
def SYS_STAT : Int := 4
def SYS_LSTAT : Int := 6
def SYS_FSTATAT : Int := 262
def SYS_ACCESS : Int := 21
def SYS_FACCESSAT : Int := 269
def SYS_FACCESSAT2 : Int := 439
def SYS_MKDIR : Int := 83
def SYS_MKDIRAT : Int := 258

/-- `is_filesystem_syscall`. -/
def is_filesystem_syscall (syscall : Int) : Bool :=
  syscall = SYS_OPEN || syscall = SYS_OPENAT || syscall = SYS_OPENAT2 ||
  syscall = SYS_STAT || syscall = SYS_LSTAT || syscall = SYS_FSTATAT ||
  syscall = SYS_ACCESS || syscall = SYS_FACCESSAT || syscall = SYS_FACCESSAT2 ||
  syscall = SYS_MKDIR || syscall = SYS_MKDIRAT

/-- `u64 as i32`: keep the low 32 bits, reinterpret as signed. -/
def u64ToI32 (n : Nat) : Int :=
  let m := n % 4294967296
  if m < 2147483648 then (m : Int) else (m : Int) - 4294967296

/-- `NativeEndian::read_u16` (x86_64: little-endian). -/
def readU16NE (b0 b1 : Byte) : Nat := b0.val + 256 * b1.val

/-- `BigEndian::read_u16`. -/
def readU16BE (b0 b1 : Byte) : Nat := 256 * b0.val + b1.val

/-- `Ipv4Addr::to_string`: dotted decimal. -/
def ipv4String (a b c d : Byte) : String :=
  toString a.val ++ "." ++ toString b.val ++ "." ++ toString c.val ++ "." ++ toString d.val

/-- `Ipv6Addr::to_string`, abstracted: the eight groups in hex joined
by `:` (the zero-run compression of the real `Display` impl is not
modelled; no claim inspects an IPv6 host string). -/
def ipv6String (groups : List Nat) : String :=
  String.intercalate ":" (groups.map (fun g => Nat.toDigits 16 g |> String.mk))

/-- `parse_sockaddr`. `data.getD` indexing is always under the length
guards the source's match arms carry. -/
def parse_sockaddr (data : List Byte) : Option NetworkTarget :=
  if data.length < 2 then none
  else
    let family := readU16NE (data.getD 0 0) (data.getD 1 0)
    if family = 2 && decide (8 ≤ data.length) then
      -- AF_INET: bytes [2..4] big-endian port, [4..8] IPv4 octets
      some { host := ipv4String (data.getD 4 0) (data.getD 5 0) (data.getD 6 0) (data.getD 7 0)
             port := readU16BE (data.getD 2 0) (data.getD 3 0)
             protocol := "tcp/udp" }
    else if family = 10 && decide (24 ≤ data.length) then
      -- AF_INET6: bytes [2..4] big-endian port, [8..24] address
      some { host := ipv6String ((List.range 8).map (fun i =>
               readU16BE (data.getD (8 + i * 2) 0) (data.getD (9 + i * 2) 0)))
             port := readU16BE (data.getD 2 0) (data.getD 3 0)
             protocol := "tcp/udp" }
    else none

/-- Oracle for the handler's interactions with the kernel, the child's
memory and the policy engine. -/
structure MonitorWorld where
  /-- `memory::read_remote_memory pid addr len`. -/
  readMem : Nat → Nat → Nat → Except String (List Byte)
  /-- `read_null_terminated_string` followed by `PathBuf::from`:
  chunked bounded read of a NUL-terminated string at `(pid, addr)`,
  `Except.error` on read failure or non-UTF-8 bytes. -/
  readPathStr : Nat → Nat → Except String FsPath
  /-- `PolicyEngine::evaluate` (behaviour-profile side effects are not
  observable through the handler's return value). -/
  policyEval : AccessAttempt → PolicyDecision

/-- `handle_network_syscall`: returns the event data and the updated
`decision_action` (mutated only when the policy denies). -/
def handle_network_syscall (w : MonitorWorld) (req : SeccompNotif)
    (decision_action : DecisionAction) :
    Option (AccessAttempt × PolicyDecision) × DecisionAction :=
  let remote_addr_ptr := req.data.arg 1
  let addrlen := req.data.arg 2
  if addrlen = 0 then (none, decision_action)
  else
    match w.readMem req.pid remote_addr_ptr addrlen with
    | .error _ => (none, decision_action)
    | .ok bytes =>
      match parse_sockaddr bytes with
      | none => (none, decision_action)
      | some target =>
        let attempt : AccessAttempt :=
          { kind := .Network
            target := .Network target
            note := some ("Syscall: " ++ toString req.data.nr) }
        let policy_decision := w.policyEval attempt
        let decision_action := match policy_decision.action with
          | .Deny => DecisionAction.Deny
          | _ => decision_action
        (some (attempt, policy_decision), decision_action)

/-- `AT_FDCWD`. -/
def AT_FDCWD : Int := -100

/-- `read_path_argument`: which argument holds the path, guarded by the
`AT_FDCWD` check for directory-relative syscalls. -/
def read_path_argument (w : MonitorWorld) (req : SeccompNotif) (syscall : Int) :
    Option (Except String FsPath) :=
  if syscall = SYS_OPEN || syscall = SYS_ACCESS || syscall = SYS_STAT ||
      syscall = SYS_LSTAT || syscall = SYS_MKDIR then
    some (w.readPathStr req.pid (req.data.arg 0))
  else if syscall = SYS_OPENAT || syscall = SYS_MKDIRAT || syscall = SYS_FACCESSAT then
    if u64ToI32 (req.data.arg 0) = AT_FDCWD then
      some (w.readPathStr req.pid (req.data.arg 1))
    else none
  else if syscall = SYS_FSTATAT then
    if u64ToI32 (req.data.arg 0) = AT_FDCWD then
      some (w.readPathStr req.pid (req.data.arg 1))
    else none
  else if syscall = SYS_OPENAT2 then none
  else if syscall = SYS_FACCESSAT2 then
    if u64ToI32 (req.data.arg 0) = AT_FDCWD then
      some (w.readPathStr req.pid (req.data.arg 1))
    else none
  else none

/-- `handle_filesystem_syscall`: returns the event data, the updated
`decision_action` and the `path_redirect` slot. -/
def handle_filesystem_syscall (w : MonitorWorld) (mapper : PathMapper)
    (req : SeccompNotif) (syscall : Int) (decision_action : DecisionAction)
    (path_redirect : Option FsPath) :
    Option (AccessAttempt × PolicyDecision) × DecisionAction × Option FsPath :=
  match read_path_argument w req syscall with
  | none => (none, decision_action, path_redirect)
  | some (.error _) => (none, decision_action, path_redirect)
  | some (.ok path) =>
    let attempt : AccessAttempt :=
      { kind := .Read -- kind defaults to Read; refinement is an open question
        target := .Path path
        note := some ("Syscall: " ++ toString syscall) }
    let policy_decision := w.policyEval attempt
    match policy_decision.action with
    | .Deny => (some (attempt, policy_decision), .Deny, path_redirect)
    | .Redirect _ =>
      let path_redirect := match mapper.map_path path with
        | some mapped => some mapped
        | none => path_redirect
      (some (attempt, policy_decision), .Allow, path_redirect)
    | .Virtualize _ =>
      -- (`ensure_dir_exists` on the mapped parent is a side effect only)
      let path_redirect := match mapper.map_path path with
        | some mapped => some mapped
        | none => path_redirect
      (some (attempt, policy_decision), .Allow, path_redirect)
    | .Allow => (some (attempt, policy_decision), .Allow, path_redirect)

/-- The response-construction tail of `handle_notification`: start from
`{id, val: 0, error: 0, flags: 0}`, set `error := 1` (EPERM) on Deny,
then on a pending path redirect force `error := 0, flags := 1`
(the redirect is only logged; the syscall is continued), else set the
CONTINUE flag on Allow. -/
def build_response (rid : Nat) (decision_action : DecisionAction)
    (path_redirect : Option FsPath) : SeccompNotifResp :=
  let resp : SeccompNotifResp := { id := rid, val := 0, error := 0, flags := 0 }
  let resp := if decision_action = .Deny then { resp with error := 1 } else resp
  match path_redirect with
  | some _ => { resp with error := 0, flags := 1 }
  | none =>
    if decision_action = .Allow then { resp with flags := 1 } else resp

/-- `handle_notification`, from successful `SECCOMP_IOCTL_NOTIF_RECV`
of `req` to the single `SECCOMP_IOCTL_NOTIF_SEND` of the returned
response: yields the response record and the event data passed back to
the caller. -/
def handle_notification (w : MonitorWorld) (mapper : PathMapper)
    (req : SeccompNotif) :
    SeccompNotifResp × Option (AccessAttempt × PolicyDecision) :=
  let syscall := req.data.nr
  let state :=
    if syscall = SYS_CONNECT || syscall = SYS_BIND then
      let r := handle_network_syscall w req .Allow
      (r.1, r.2, (none : Option FsPath))
    else if is_filesystem_syscall syscall then
      handle_filesystem_syscall w mapper req syscall .Allow none
    else
      -- unexpected syscall: logged, decision stays Allow
      (none, .Allow, none)
  (build_response req.id state.2.1 state.2.2, state.1)

/-! ## Concrete instances used in closed-form evaluations -/

/-- The S2 sockaddr bytes: AF_INET, port 443, 93.184.216.34. -/
def s2Bytes : List Byte :=
  [0x02, 0x00, 0x01, 0xBB, 0x5D, 0xB8, 0xD8, 0x22, 0, 0, 0, 0, 0, 0, 0, 0]

/-- An oracle whose memory reads yield a single byte, whose path reads
fail, and whose policy always allows. -/
def sampleWorld : MonitorWorld where
  readMem := fun _ _ _ => .ok [0]
  readPathStr := fun _ _ => .error "unreadable"
  policyEval := fun _ =>
    { action := .Allow, reason := "ok", zone_label := none, systemic_risk := false }

/-- An oracle whose memory reads yield the S2 sockaddr and whose policy
always denies. -/
def denyAllWorld : MonitorWorld where
  readMem := fun _ _ _ => .ok s2Bytes
  readPathStr := fun _ _ => .error "unreadable"
  policyEval := fun _ =>
    { action := .Deny, reason := "blocked", zone_label := none, systemic_risk := true }

/-- A `connect(fd, addr, 16)` notification. -/
def sampleConnectReq : SeccompNotif :=
  { id := 7, pid := 1234, flags := 0
    data := { nr := 42, arch := 0, instruction_pointer := 0
              args := [3, 4096, 16, 0, 0, 0] } }

/-- A mapper with no rules. -/
def emptyMapper : PathMapper := PathMapper.with_mappings []

/-! # Theorems -/

/-- When no sacred zone matches, the zone scan falls through to the
prefix-boundary check. -/
theorem evaluate_path_no_zone (p root : FsPath) (zones : List SacredZone)
    (hz : ∀ z ∈ zones, z.matches p = false) :
    evaluate_path p root zones = evaluate_path p root [] := by
  induction zones with
  | nil => rfl
  | cons z rest ih =>
    have h0 := hz z (List.mem_cons_self z rest)
    simp only [evaluate_path, h0, Bool.false_eq_true, if_false]
    exact ih fun z' h => hz z' (List.mem_cons_of_mem _ h)

/-- C5: with no matching sacred zone, a path under the prefix root is
allowed without systemic risk, and a path outside the prefix root is
denied with systemic risk and a reason containing "outside prefix";
in particular `/etc/shadow` under prefix `/tmp/prefix` with no zones
is denied with systemic risk. -/
theorem evaluate_path_prefix_boundary (p root : FsPath) (zones : List SacredZone)
    (hz : ∀ z ∈ zones, z.matches p = false) :
    (root.isPrefixOf p = true →
      evaluate_path p root zones =
        { action := .Allow, reason := "Access within prefix allowed",
          zone_label := none, systemic_risk := false }) ∧
    (root.isPrefixOf p = false →
      (evaluate_path p root zones).action = .Deny ∧
      (evaluate_path p root zones).systemic_risk = true ∧
      containsSub (evaluate_path p root zones).reason.toList "outside prefix".toList = true) := by
  rw [evaluate_path_no_zone p root zones hz]
  constructor
  · intro hp
    simp [evaluate_path, hp]
  · intro hp
    simp only [evaluate_path, hp]
    refine ⟨rfl, rfl, ?_⟩
    decide

/-- Witness for C5 at the S3 scenario: `/etc/shadow`, prefix
`/tmp/prefix`, no zones. -/
theorem evaluate_path_prefix_boundary_witness :
    (evaluate_path ["etc", "shadow"] ["tmp", "prefix"] []).action = .Deny ∧
    (evaluate_path ["etc", "shadow"] ["tmp", "prefix"] []).systemic_risk = true ∧
    containsSub (evaluate_path ["etc", "shadow"] ["tmp", "prefix"] []).reason.toList
      "outside prefix".toList = true :=
  (evaluate_path_prefix_boundary ["etc", "shadow"] ["tmp", "prefix"] []
    (by intro z h; cases h)).2 (by decide)

/-- The copy step either leaves the `copied` map unchanged (on any
failure) or conses the new binding onto it. -/
theorem copy_on_write_copied (cow : CopyOnWrite) (w : FsWorld) (o v : FsPath) :
    ((cow.copy_on_write w o v).2).copied = cow.copied ∨
    ((cow.copy_on_write w o v).2).copied = (o, v) :: cow.copied := by
  unfold CopyOnWrite.copy_on_write
  repeat' split
  all_goals simp

/-- A resolve call never removes or rewrites an existing binding. -/
theorem resolve_write_path_preserves (cow : CopyOnWrite) (w : FsWorld)
    (o' v' : FsPath) (iw' : Bool) (o m : FsPath)
    (h : lookupCopied cow.copied o = some m) :
    lookupCopied ((cow.resolve_write_path w o' v' iw').2).copied o = some m := by
  unfold CopyOnWrite.resolve_write_path
  cases hl : lookupCopied cow.copied o' with
  | some cp => simpa using h
  | none =>
    by_cases hw : iw' = true
    · simp only [hl, hw, Bool.not_true, Bool.false_eq_true, if_false]
      rcases copy_on_write_copied cow w o' v' with hc | hc
      · rw [hc]; exact h
      · rw [hc]
        have hne : o' ≠ o := by
          intro he; rw [he] at hl; rw [hl] at h; exact Option.noConfusion h
        simp only [lookupCopied, hne, if_false]
        exact h
    · have hw' : iw' = false := by cases iw' <;> simp_all
      simp only [hl, hw', Bool.not_false, if_true]
      exact h

/-- C7: once an original is materialized (present in the `copied` map),
every later `resolve_write_path` call for it — whatever its
`virtual_path` and `is_write` arguments, and after any interleaved
sequence of other calls — returns the stored materialized path. -/
theorem resolve_write_path_stable :
    (∀ (w : FsWorld) (cow : CopyOnWrite) (o v : FsPath) (iw : Bool) (m : FsPath),
      lookupCopied cow.copied o = some m →
      cow.resolve_write_path w o v iw = (.ok m, cow)) ∧
    (∀ (calls : List (FsWorld × FsPath × FsPath × Bool)) (cow : CopyOnWrite)
       (o m : FsPath),
      lookupCopied cow.copied o = some m →
      ∀ (w : FsWorld) (v : FsPath) (iw : Bool),
        ((runResolves calls cow).resolve_write_path w o v iw).1 = .ok m) := by
  have hbase : ∀ (w : FsWorld) (cow : CopyOnWrite) (o v : FsPath) (iw : Bool) (m : FsPath),
      lookupCopied cow.copied o = some m →
      cow.resolve_write_path w o v iw = (.ok m, cow) := by
    intro w cow o v iw m h
    unfold CopyOnWrite.resolve_write_path
    rw [h]
  refine ⟨hbase, ?_⟩
  intro calls
  induction calls with
  | nil =>
    intro cow o m h w v iw
    rw [runResolves, hbase w cow o v iw m h]
  | cons c rest ih =>
    intro cow o m h w v iw
    obtain ⟨w', o', v', iw'⟩ := c
    rw [runResolves]
    exact ih _ o m (resolve_write_path_preserves cow w' o' v' iw' o m h) w v iw

/-- Witness for C7: a tracker that has materialized `/home/u/f` at
`/virt/f` keeps answering `/virt/f`, both directly and after an
interleaved call. -/
theorem resolve_write_path_stable_witness :
    (CopyOnWrite.resolve_write_path ⟨[(["home", "u", "f"], ["virt", "f"])]⟩
      { pathExists := fun _ => false, metadataOk := fun _ => true,
        isDir := fun _ => false, createDirAllOk := fun _ => true,
        setPermsOk := fun _ => true, copyOk := fun _ _ => true }
      ["home", "u", "f"] ["other", "v"] false).1 = .ok ["virt", "f"] := by
  have h := resolve_write_path_stable.2 []
    ⟨[(["home", "u", "f"], ["virt", "f"])]⟩ ["home", "u", "f"] ["virt", "f"]
    (by decide)
    { pathExists := fun _ => false, metadataOk := fun _ => true,
      isDir := fun _ => false, createDirAllOk := fun _ => true,
      setPermsOk := fun _ => true, copyOk := fun _ _ => true }
    ["other", "v"] false
  simpa [runResolves] using h

/-- Recording a denied attempt leaves `child_count` unchanged;
recording an allowed one increments it. -/
theorem record_attempt_child_count (t : ProcessTracker) (p : String) :
    (t.record_attempt p false).child_count = t.child_count ∧
    (t.record_attempt p true).child_count = t.child_count + 1 := by
  constructor <;> rfl

/-- Each spawn evaluation changes `child_count` by exactly the allow
indicator: denials never increment, allowals increment by one. -/
theorem evaluate_process_spawn_count (process : String) (config : ProcessConfig)
    (tracker : ProcessTracker) :
    (evaluate_process_spawn process config tracker).2.child_count =
      tracker.child_count +
        (if (evaluate_process_spawn process config tracker).1.action = .Allow
         then 1 else 0) := by
  unfold evaluate_process_spawn
  repeat' split
  all_goals simp_all [ProcessTracker.record_attempt]

/-- C8: a spawn is denied (tracker untouched) whenever `child_count`
has reached `max_child_processes`; each evaluation increments
`child_count` only on Allow; hence from a fresh tracker the count never
exceeds the limit after any sequence of evaluations. -/
theorem process_tracker_child_limit :
    (∀ (process : String) (config : ProcessConfig) (tracker : ProcessTracker),
      config.max_child_processes ≤ tracker.child_count →
      (evaluate_process_spawn process config tracker).1.action = .Deny ∧
      (evaluate_process_spawn process config tracker).2 = tracker) ∧
    (∀ (process : String) (config : ProcessConfig) (tracker : ProcessTracker),
      (evaluate_process_spawn process config tracker).2.child_count =
        tracker.child_count +
          (if (evaluate_process_spawn process config tracker).1.action = .Allow
           then 1 else 0)) ∧
    (∀ (config : ProcessConfig) (procs : List String),
      (runSpawns config ProcessTracker.new procs).child_count ≤
        config.max_child_processes) := by
  have hlimit : ∀ (process : String) (config : ProcessConfig) (tracker : ProcessTracker),
      config.max_child_processes ≤ tracker.child_count →
      (evaluate_process_spawn process config tracker).1.action = .Deny ∧
      (evaluate_process_spawn process config tracker).2 = tracker := by
    intro process config tracker h
    have hx : tracker.would_exceed_limit config.max_child_processes = true := by
      simpa [ProcessTracker.would_exceed_limit] using h
    unfold evaluate_process_spawn
    rw [hx]
    exact ⟨rfl, rfl⟩
  refine ⟨hlimit, evaluate_process_spawn_count, ?_⟩
  intro config procs
  have hstep : ∀ tracker : ProcessTracker,
      tracker.child_count ≤ config.max_child_processes →
      ∀ process, (evaluate_process_spawn process config tracker).2.child_count ≤
        config.max_child_processes := by
    intro tracker h process
    by_cases hl : config.max_child_processes ≤ tracker.child_count
    · rw [(hlimit process config tracker hl).2]
      exact h
    · have := evaluate_process_spawn_count process config tracker
      rw [this]
      split <;> omega
  suffices hgen : ∀ (procs : List String) (tracker : ProcessTracker),
      tracker.child_count ≤ config.max_child_processes →
      (runSpawns config tracker procs).child_count ≤ config.max_child_processes by
    exact hgen procs ProcessTracker.new (Nat.zero_le _)
  intro ps
  induction ps with
  | nil => intro tracker h; exact h
  | cons p rest ih =>
    intro tracker h
    rw [runSpawns]
    exact ih _ (hstep tracker h p)

/-- Witness for C8: with a limit of zero, the very first spawn is
denied and the tracker is unchanged. -/
theorem process_tracker_child_limit_witness :
    (evaluate_process_spawn "wine64"
      { allowed_patterns := [], blocked_patterns := [], max_child_processes := 0,
        allow_shell_execution := true, allow_script_execution := true }
      ProcessTracker.new).1.action = .Deny :=
  (process_tracker_child_limit.1 "wine64"
    { allowed_patterns := [], blocked_patterns := [], max_child_processes := 0,
      allow_shell_execution := true, allow_script_execution := true }
    ProcessTracker.new (Nat.le_refl 0)).1

/-- C9: any sockaddr buffer of length at least 8 whose native-endian
family field is 2 (AF_INET) parses to the big-endian port at bytes
[2..4] and the dotted-decimal IPv4 host at bytes [4..8]. -/
theorem parse_sockaddr_ipv4 (data : List Byte) (h8 : 8 ≤ data.length)
    (hfam : readU16NE (data.getD 0 0) (data.getD 1 0) = 2) :
    parse_sockaddr data = some
      { host := ipv4String (data.getD 4 0) (data.getD 5 0) (data.getD 6 0) (data.getD 7 0)
        port := readU16BE (data.getD 2 0) (data.getD 3 0)
        protocol := "tcp/udp" } := by
  unfold parse_sockaddr
  rw [if_neg (by omega : ¬ data.length < 2)]
  dsimp only
  rw [if_pos (by simp only [Bool.and_eq_true, decide_eq_true_eq]; exact ⟨hfam, h8⟩)]

/-- Witness for C9 at the S2 bytes: host 93.184.216.34, port 443. -/
theorem parse_sockaddr_ipv4_witness :
    parse_sockaddr s2Bytes =
      some { host := "93.184.216.34", port := 443, protocol := "tcp/udp" } := by
  have h := parse_sockaddr_ipv4 s2Bytes (by decide) (by decide)
  rw [h]
  rfl

/-- C10: `parse_sockaddr` is total: it returns `none` exactly when the
buffer is shorter than 2 bytes, declares AF_INET with fewer than 8
bytes, declares AF_INET6 with fewer than 24 bytes, or declares any
other family; and whenever the bytes read for a network syscall parse
to `none`, `handle_network_syscall` records no attempt and leaves the
decision untouched (the syscall is then answered with CONTINUE). -/
theorem parse_sockaddr_total :
    (∀ data : List Byte,
      (parse_sockaddr data = none ↔
        data.length < 2 ∨
        (readU16NE (data.getD 0 0) (data.getD 1 0) = 2 ∧ data.length < 8) ∨
        (readU16NE (data.getD 0 0) (data.getD 1 0) = 10 ∧ data.length < 24) ∨
        (readU16NE (data.getD 0 0) (data.getD 1 0) ≠ 2 ∧
          readU16NE (data.getD 0 0) (data.getD 1 0) ≠ 10))) ∧
    (∀ (w : MonitorWorld) (req : SeccompNotif) (d : DecisionAction),
      (∀ bytes, w.readMem req.pid (req.data.arg 1) (req.data.arg 2) = .ok bytes →
        parse_sockaddr bytes = none) →
      handle_network_syscall w req d = (none, d)) := by
  constructor
  · intro data
    unfold parse_sockaddr
    by_cases h2 : data.length < 2
    · rw [if_pos h2]
      exact iff_of_true rfl (Or.inl h2)
    · rw [if_neg h2]
      dsimp only
      by_cases hf2 : readU16NE (data.getD 0 0) (data.getD 1 0) = 2
      · by_cases h8 : 8 ≤ data.length
        · rw [if_pos (by simp only [Bool.and_eq_true, decide_eq_true_eq]; exact ⟨hf2, h8⟩)]
          refine iff_of_false (by simp) ?_
          rintro (h | ⟨h1, h1'⟩ | ⟨h1, h1'⟩ | ⟨h1, h1'⟩) <;> omega
        · have hc1 : ¬ ((decide (readU16NE (data.getD 0 0) (data.getD 1 0) = 2) &&
              decide (8 ≤ data.length)) = true) := by
            simp only [Bool.and_eq_true, decide_eq_true_eq, not_and]
            exact fun _ => h8
          have hc2 : ¬ ((decide (readU16NE (data.getD 0 0) (data.getD 1 0) = 10) &&
              decide (24 ≤ data.length)) = true) := by
            simp only [Bool.and_eq_true, decide_eq_true_eq, not_and]
            exact fun h10 => absurd (hf2.symm.trans h10) (by norm_num)
          rw [if_neg hc1, if_neg hc2]
          exact iff_of_true rfl (Or.inr (Or.inl ⟨hf2, by omega⟩))
      · have hc1 : ¬ ((decide (readU16NE (data.getD 0 0) (data.getD 1 0) = 2) &&
            decide (8 ≤ data.length)) = true) := by
          simp only [Bool.and_eq_true, decide_eq_true_eq, not_and]
          exact fun h => absurd h hf2
        rw [if_neg hc1]
        by_cases hf10 : readU16NE (data.getD 0 0) (data.getD 1 0) = 10
        · by_cases h24 : 24 ≤ data.length
          · rw [if_pos (by simp only [Bool.and_eq_true, decide_eq_true_eq]; exact ⟨hf10, h24⟩)]
            refine iff_of_false (by simp) ?_
            rintro (h | ⟨h1, h1'⟩ | ⟨h1, h1'⟩ | ⟨h1, h1'⟩) <;> omega
          · have hc2 : ¬ ((decide (readU16NE (data.getD 0 0) (data.getD 1 0) = 10) &&
                decide (24 ≤ data.length)) = true) := by
              simp only [Bool.and_eq_true, decide_eq_true_eq, not_and]
              exact fun _ => h24
            rw [if_neg hc2]
            exact iff_of_true rfl (Or.inr (Or.inr (Or.inl ⟨hf10, by omega⟩)))
        · have hc2 : ¬ ((decide (readU16NE (data.getD 0 0) (data.getD 1 0) = 10) &&
              decide (24 ≤ data.length)) = true) := by
            simp only [Bool.and_eq_true, decide_eq_true_eq, not_and]
            exact fun h => absurd h hf10
          rw [if_neg hc2]
          exact iff_of_true rfl (Or.inr (Or.inr (Or.inr ⟨hf2, hf10⟩)))
  · intro w req d h
    unfold handle_network_syscall
    by_cases h0 : req.data.arg 2 = 0
    · simp [h0]
    · rw [if_neg h0]
      cases hm : w.readMem req.pid (req.data.arg 1) (req.data.arg 2) with
      | error e => rfl
      | ok bytes =>
        dsimp only
        rw [h bytes hm]

/-- Witness for C10: a one-byte read parses to nothing, so the connect
notification produces no event and the decision stays Allow. -/
theorem parse_sockaddr_total_witness :
    handle_network_syscall sampleWorld sampleConnectReq .Allow = (none, .Allow) := by
  refine parse_sockaddr_total.2 sampleWorld sampleConnectReq .Allow ?_
  intro bytes hb
  have hbytes : bytes = [0] := by
    have : Except.ok (ε := String) [(0 : Byte)] = .ok bytes := hb
    cases this
    rfl
  rw [hbytes]
  rfl

/-- `handle_network_syscall` starting from Allow either produces no
event (decision untouched) or the policy's event, denying exactly when
the policy denied. -/
theorem handle_network_syscall_cases (w : MonitorWorld) (req : SeccompNotif) :
    handle_network_syscall w req .Allow = (none, .Allow) ∨
    (∃ a pd, handle_network_syscall w req .Allow =
      (some (a, pd), if pd.action = .Deny then .Deny else .Allow)) := by
  unfold handle_network_syscall
  by_cases h0 : req.data.arg 2 = 0
  · left; simp [h0]
  · rw [if_neg h0]
    cases hm : w.readMem req.pid (req.data.arg 1) (req.data.arg 2) with
    | error e => left; rfl
    | ok bytes =>
      dsimp only
      cases hp : parse_sockaddr bytes with
      | none => left; rfl
      | some target =>
        right
        dsimp only
        refine ⟨{ kind := .Network, target := .Network target,
                  note := some ("Syscall: " ++ toString req.data.nr) },
                w.policyEval
                  { kind := .Network, target := .Network target,
                    note := some ("Syscall: " ++ toString req.data.nr) }, ?_⟩
        cases hpd : (w.policyEval
            { kind := .Network, target := .Network target,
              note := some ("Syscall: " ++ toString req.data.nr) }).action <;>
          simp [hpd]

/-- `handle_filesystem_syscall` starting from Allow with an empty
redirect slot either produces no event (state untouched) or the
policy's event; it denies exactly when the policy denied, and in that
case the redirect slot stays empty. -/
theorem handle_filesystem_syscall_cases (w : MonitorWorld) (mapper : PathMapper)
    (req : SeccompNotif) (syscall : Int) :
    handle_filesystem_syscall w mapper req syscall .Allow none =
      (none, .Allow, none) ∨
    (∃ a pd pr, handle_filesystem_syscall w mapper req syscall .Allow none =
      (some (a, pd), if pd.action = .Deny then .Deny else .Allow, pr) ∧
      (pd.action = .Deny → pr = none)) := by
  unfold handle_filesystem_syscall
  cases hr : read_path_argument w req syscall with
  | none => left; rfl
  | some res =>
    cases res with
    | error e => left; rfl
    | ok path =>
      right
      dsimp only
      refine ⟨{ kind := .Read, target := .Path path,
                note := some ("Syscall: " ++ toString syscall) },
              w.policyEval
                { kind := .Read, target := .Path path,
                  note := some ("Syscall: " ++ toString syscall) }, ?_⟩
      cases hpd : (w.policyEval
          { kind := .Read, target := .Path path,
            note := some ("Syscall: " ++ toString syscall) }).action with
      | Deny => exact ⟨none, by simp [hpd], fun _ => rfl⟩
      | Allow => exact ⟨none, by simp [hpd], by simp [hpd]⟩
      | Redirect t =>
        refine ⟨(match mapper.map_path path with
                 | some mapped => some mapped
                 | none => none), by simp [hpd], by simp [hpd]⟩
      | Virtualize t =>
        refine ⟨(match mapper.map_path path with
                 | some mapped => some mapped
                 | none => none), by simp [hpd], by simp [hpd]⟩

/-- The response construction: a denial with no pending redirect gets
error EPERM and no flags; an allowal gets error 0 and the CONTINUE
flag; a pending redirect forces error 0 and CONTINUE; the id is always
echoed. -/
theorem build_response_cases (rid : Nat) :
    (build_response rid .Deny none = { id := rid, val := 0, error := 1, flags := 0 }) ∧
    (∀ pr, build_response rid .Allow pr = { id := rid, val := 0, error := 0, flags := 1 }) ∧
    (∀ d x, build_response rid d (some x) = { id := rid, val := 0, error := 0, flags := 1 }) := by
  refine ⟨rfl, ?_, ?_⟩
  · intro pr
    cases pr <;> rfl
  · intro d x
    cases d <;> rfl

/-- C1: for every received notification the handler sends exactly one
response (the single record this function yields), whose id equals the
notification's; when the policy decision is Deny the response carries
error EPERM (1) and no CONTINUE flag, and in every other case —
including unknown syscalls, unreadable arguments and unparseable
paths — it carries error 0 with the CONTINUE flag. -/
theorem handle_notification_response (w : MonitorWorld) (mapper : PathMapper)
    (req : SeccompNotif) :
    (handle_notification w mapper req).1.id = req.id ∧
    ((handle_notification w mapper req).2 = none →
      (handle_notification w mapper req).1.error = 0 ∧
      (handle_notification w mapper req).1.flags = 1) ∧
    (∀ a pd, (handle_notification w mapper req).2 = some (a, pd) →
      (pd.action = .Deny →
        (handle_notification w mapper req).1.error = 1 ∧
        (handle_notification w mapper req).1.flags = 0) ∧
      (pd.action ≠ .Deny →
        (handle_notification w mapper req).1.error = 0 ∧
        (handle_notification w mapper req).1.flags = 1)) := by
  unfold handle_notification
  dsimp only
  by_cases hn : (req.data.nr = SYS_CONNECT || req.data.nr = SYS_BIND) = true
  · rw [if_pos hn]
    rcases handle_network_syscall_cases w req with h | ⟨a, pd, h⟩
    · rw [h]
      dsimp only
      rw [(build_response_cases req.id).2.1 none]
      exact ⟨rfl, fun _ => ⟨rfl, rfl⟩, fun a pd hev => Option.noConfusion hev⟩
    · rw [h]
      dsimp only
      refine ⟨?_, ?_, ?_⟩
      · by_cases hd : pd.action = .Deny
        · rw [if_pos hd, (build_response_cases req.id).1]
        · rw [if_neg hd, (build_response_cases req.id).2.1 none]
      · intro hev
        exact Option.noConfusion hev
      · intro a' pd' hev
        obtain ⟨ha', hpd'⟩ := Prod.mk.injEq .. ▸ Option.some.inj hev
        subst ha' hpd'
        constructor
        · intro hd
          rw [if_pos hd, (build_response_cases req.id).1]
          exact ⟨rfl, rfl⟩
        · intro hd
          rw [if_neg hd, (build_response_cases req.id).2.1 none]
          exact ⟨rfl, rfl⟩
  · rw [if_neg hn]
    by_cases hf : is_filesystem_syscall req.data.nr = true
    · rw [if_pos hf]
      rcases handle_filesystem_syscall_cases w mapper req req.data.nr with
        h | ⟨a, pd, pr, h, hden⟩
      · rw [h]
        dsimp only
        rw [(build_response_cases req.id).2.1 none]
        exact ⟨rfl, fun _ => ⟨rfl, rfl⟩, fun a pd hev => Option.noConfusion hev⟩
      · rw [h]
        dsimp only
        refine ⟨?_, ?_, ?_⟩
        · by_cases hd : pd.action = .Deny
          · rw [hden hd, if_pos hd, (build_response_cases req.id).1]
          · cases pr with
            | none => rw [if_neg hd, (build_response_cases req.id).2.1 none]
            | some x => rw [(build_response_cases req.id).2.2 _ x]
        · intro hev
          exact Option.noConfusion hev
        · intro a' pd' hev
          obtain ⟨ha', hpd'⟩ := Prod.mk.injEq .. ▸ Option.some.inj hev
          subst ha' hpd'
          constructor
          · intro hd
            rw [hden hd, if_pos hd, (build_response_cases req.id).1]
            exact ⟨rfl, rfl⟩
          · intro hd
            cases pr with
            | none =>
              rw [if_neg hd, (build_response_cases req.id).2.1 none]
              exact ⟨rfl, rfl⟩
            | some x =>
              rw [(build_response_cases req.id).2.2 _ x]
              exact ⟨rfl, rfl⟩
    · rw [if_neg hf]
      dsimp only
      rw [(build_response_cases req.id).2.1 none]
      exact ⟨rfl, fun _ => ⟨rfl, rfl⟩, fun a pd hev => Option.noConfusion hev⟩

/-- Witness for C1: the S6-style round trip — a connect notification
whose address bytes parse to 93.184.216.34:443 under a denying policy
is answered with the same id, error EPERM and no continue flag. -/
theorem handle_notification_response_witness :
    (handle_notification denyAllWorld emptyMapper sampleConnectReq).1.id = 7 ∧
    (handle_notification denyAllWorld emptyMapper sampleConnectReq).1.error = 1 ∧
    (handle_notification denyAllWorld emptyMapper sampleConnectReq).1.flags = 0 := by
  have h := handle_notification_response denyAllWorld emptyMapper sampleConnectReq
  have hev : (handle_notification denyAllWorld emptyMapper sampleConnectReq).2 =
      some ({ kind := .Network,
              target := .Network { host := "93.184.216.34", port := 443, protocol := "tcp/udp" },
              note := some "Syscall: 42" },
            { action := .Deny, reason := "blocked", zone_label := none,
              systemic_risk := true }) := by
    rfl
  have h3 := (h.2.2 _ _ hev).1 rfl
  exact ⟨h.1, h3.1, h3.2⟩

/-- Membership through one descending insertion. -/
theorem mem_insertDesc (x y : FsPath × FsPath) (l : List (FsPath × FsPath)) :
    y ∈ insertDesc x l ↔ y = x ∨ y ∈ l := by
  induction l with
  | nil => simp [insertDesc]
  | cons z zs ih =>
    by_cases h : osStrLen z.1 ≤ osStrLen x.1
    · rw [insertDesc, if_pos h]
      simp [List.mem_cons]
    · rw [insertDesc, if_neg h]
      simp only [List.mem_cons, ih]
      tauto

/-- Descending insertion preserves the descending-length invariant. -/
theorem pairwise_insertDesc (x : FsPath × FsPath) (l : List (FsPath × FsPath))
    (h : l.Pairwise (fun a b => osStrLen b.1 ≤ osStrLen a.1)) :
    (insertDesc x l).Pairwise (fun a b => osStrLen b.1 ≤ osStrLen a.1) := by
  induction l with
  | nil => simp [insertDesc]
  | cons z zs ih =>
    rcases List.pairwise_cons.1 h with ⟨hz, hzs⟩
    by_cases hc : osStrLen z.1 ≤ osStrLen x.1
    · rw [insertDesc, if_pos hc]
      refine List.pairwise_cons.2 ⟨?_, h⟩
      intro b hb
      rcases List.mem_cons.1 hb with rfl | hb'
      · exact hc
      · exact le_trans (hz b hb') hc
    · rw [insertDesc, if_neg hc]
      refine List.pairwise_cons.2 ⟨?_, ih hzs⟩
      intro b hb
      rcases (mem_insertDesc x b zs).1 hb with rfl | hb'
      · exact Nat.le_of_lt (Nat.lt_of_not_le hc)
      · exact hz b hb'

/-- Sorting the mappings changes no memberships. -/
theorem mem_sortMappings (l : List (FsPath × FsPath)) (y : FsPath × FsPath) :
    y ∈ sortMappings l ↔ y ∈ l := by
  induction l with
  | nil => simp [sortMappings]
  | cons z zs ih =>
    show y ∈ insertDesc z (sortMappings zs) ↔ _
    rw [mem_insertDesc]
    simp only [List.mem_cons, ih]

/-- The sorted mappings are descending in source length. -/
theorem pairwise_sortMappings (l : List (FsPath × FsPath)) :
    (sortMappings l).Pairwise (fun a b => osStrLen b.1 ≤ osStrLen a.1) := by
  induction l with
  | nil => exact List.Pairwise.nil
  | cons z zs ih => exact pairwise_insertDesc z (sortMappings zs) ih

/-- On a descending-sorted list, the first-match scan returns a match
of maximal source length. -/
theorem mapPathGo_first_match (p : FsPath) (L : List (FsPath × FsPath))
    (hsorted : L.Pairwise (fun a b => osStrLen b.1 ≤ osStrLen a.1))
    (hex : ∃ sd ∈ L, sd.1.isPrefixOf p = true) :
    ∃ sd ∈ L, sd.1.isPrefixOf p = true ∧
      mapPathGo p L = some (sd.2 ++ p.drop sd.1.length) ∧
      ∀ sd' ∈ L, sd'.1.isPrefixOf p = true → osStrLen sd'.1 ≤ osStrLen sd.1 := by
  induction L with
  | nil =>
    rcases hex with ⟨sd, h, _⟩
    cases h
  | cons hd tl ih =>
    obtain ⟨s, d⟩ := hd
    rcases List.pairwise_cons.1 hsorted with ⟨hhd, htl⟩
    by_cases hm : s.isPrefixOf p = true
    · refine ⟨(s, d), List.mem_cons_self _ _, hm, ?_, ?_⟩
      · rw [mapPathGo, if_pos hm]
      · intro sd' h' hp'
        rcases List.mem_cons.1 h' with rfl | h''
        · exact Nat.le_refl _
        · exact hhd sd' h''
    · have hex' : ∃ sd ∈ tl, sd.1.isPrefixOf p = true := by
        rcases hex with ⟨sd, hmem, hp⟩
        rcases List.mem_cons.1 hmem with rfl | h''
        · exact absurd hp hm
        · exact ⟨sd, h'', hp⟩
      rcases ih htl hex' with ⟨sd, hmem, hp, heq, hmax⟩
      refine ⟨sd, List.mem_cons_of_mem _ hmem, hp, ?_, ?_⟩
      · rw [mapPathGo, if_neg (by simpa using hm)]
        exact heq
      · intro sd' h' hp'
        rcases List.mem_cons.1 h' with rfl | h''
        · exact absurd hp' hm
        · exact hmax sd' h'' hp'

/-- With no matching source, the scan returns `none`. -/
theorem mapPathGo_none (p : FsPath) (L : List (FsPath × FsPath))
    (h : ∀ sd ∈ L, sd.1.isPrefixOf p = false) :
    mapPathGo p L = none := by
  induction L with
  | nil => rfl
  | cons hd tl ih =>
    obtain ⟨s, d⟩ := hd
    have h0 : s.isPrefixOf p = false := h (s, d) (List.mem_cons_self _ _)
    rw [mapPathGo, if_neg (by simp [h0])]
    exact ih fun sd hm => h sd (List.mem_cons_of_mem _ hm)

/-- C4: for every mapper built by `with_mappings` and every path, if
some mapping's source is a component prefix of the path, `map_path`
returns `dest.join(remainder)` for a matching mapping of maximal
(longest) source length, and otherwise `none`; in particular the S1
mapper maps `/home/user/file.txt` to `/virtual/specific/file.txt` and
`/home/other/file.txt` to `/virtual/all/other/file.txt`. -/
theorem map_path_longest_prefix_wins (ms : List (FsPath × FsPath)) (p : FsPath) :
    ((∃ sd ∈ ms, sd.1.isPrefixOf p = true) →
      ∃ sd ∈ ms, sd.1.isPrefixOf p = true ∧
        (PathMapper.with_mappings ms).map_path p = some (sd.2 ++ p.drop sd.1.length) ∧
        ∀ sd' ∈ ms, sd'.1.isPrefixOf p = true → osStrLen sd'.1 ≤ osStrLen sd.1) ∧
    ((∀ sd ∈ ms, sd.1.isPrefixOf p = false) →
      (PathMapper.with_mappings ms).map_path p = none) ∧
    (PathMapper.with_mappings
        [(["home"], ["virtual", "all"]), (["home", "user"], ["virtual", "specific"])]).map_path
      ["home", "user", "file.txt"] = some ["virtual", "specific", "file.txt"] ∧
    (PathMapper.with_mappings
        [(["home"], ["virtual", "all"]), (["home", "user"], ["virtual", "specific"])]).map_path
      ["home", "other", "file.txt"] = some ["virtual", "all", "other", "file.txt"] := by
  refine ⟨?_, ?_, by decide, by decide⟩
  · intro hex
    have hex' : ∃ sd ∈ sortMappings ms, sd.1.isPrefixOf p = true := by
      rcases hex with ⟨sd, hm, hp⟩
      exact ⟨sd, (mem_sortMappings ms sd).2 hm, hp⟩
    rcases mapPathGo_first_match p (sortMappings ms) (pairwise_sortMappings ms) hex' with
      ⟨sd, hmem, hp, heq, hmax⟩
    exact ⟨sd, (mem_sortMappings ms sd).1 hmem, hp, heq,
      fun sd' h' hp' => hmax sd' ((mem_sortMappings ms sd').2 h') hp'⟩
  · intro hall
    exact mapPathGo_none p _ fun sd h => hall sd ((mem_sortMappings ms sd).1 h)

/-- Witness for C4: the longest-prefix conclusion instantiated at the
S1 mapper and `/home/user/file.txt`. -/
theorem map_path_longest_prefix_wins_witness :
    ∃ sd ∈ [((["home"], ["virtual", "all"]) : FsPath × FsPath),
            (["home", "user"], ["virtual", "specific"])],
      sd.1.isPrefixOf ["home", "user", "file.txt"] = true ∧
      (PathMapper.with_mappings
          [(["home"], ["virtual", "all"]), (["home", "user"], ["virtual", "specific"])]).map_path
        ["home", "user", "file.txt"] =
          some (sd.2 ++ (["home", "user", "file.txt"] : FsPath).drop sd.1.length) ∧
      ∀ sd' ∈ [((["home"], ["virtual", "all"]) : FsPath × FsPath),
               (["home", "user"], ["virtual", "specific"])],
        sd'.1.isPrefixOf ["home", "user", "file.txt"] = true →
        osStrLen sd'.1 ≤ osStrLen sd.1 :=
  (map_path_longest_prefix_wins
    [(["home"], ["virtual", "all"]), (["home", "user"], ["virtual", "specific"])]
    ["home", "user", "file.txt"]).1 (by decide)

/-- C2 (code evaluated at the failing input): under Yellow tier with
the default configuration, a profile with 30 denied attempts has raw
i32 score 75 − 90 = −15; `TrustScore::new(score as u32, …)` wraps the
negative value to 4294967281 before clamping, so the published score is
100 with recommended tier Green — not the 0/Red that clamping a
negative raw sum to [0,100] would give. -/
theorem trust_score_negative_raw_wraps :
    (trust_score_raw .Yellow { BehaviorProfile.new with denied_attempts := 30 }
      TrustScoringConfig.default).1 = -15 ∧
    i32ToU32 (trust_score_raw .Yellow { BehaviorProfile.new with denied_attempts := 30 }
      TrustScoringConfig.default).1 = 4294967281 ∧
    (calculate_trust_score .Yellow { BehaviorProfile.new with denied_attempts := 30 }
      TrustScoringConfig.default).score = 100 ∧
    (calculate_trust_score .Yellow { BehaviorProfile.new with denied_attempts := 30 }
      TrustScoringConfig.default).recommended_tier = .Green := by
  decide

/-- C3 counterexample: after one `record_sensitive_path` and one
`record_outbound_connection` on a fresh profile, the recalculated
`TrustScore` has `is_suspicious = false` (its score is 72, and the
`is_suspicious` field is `score < 50`), contradicting the claim that
the TrustScore's `is_suspicious` field is true. -/
theorem trust_score_s5_cex :
    (calculate_trust_score .Yellow
      ((BehaviorProfile.new.record_sensitive_path "/home/user/.ssh").record_outbound_connection
        "example.com")
      TrustScoringConfig.default).is_suspicious = false := by
  decide

/-- C3 (amended): a clean profile under Yellow scores at least 70
(exactly 80) and is not suspicious; after one sensitive-path record and
one outbound-connection record the recalculated TrustScore has
non-empty notes and the profile's `is_suspicious()` method returns
true, while the TrustScore's own `is_suspicious` field is false (the
score is 72, not below 50). -/
theorem trust_score_s5 :
    (70 ≤ (calculate_trust_score .Yellow BehaviorProfile.new TrustScoringConfig.default).score ∧
     (calculate_trust_score .Yellow BehaviorProfile.new
       TrustScoringConfig.default).is_suspicious = false) ∧
    (((BehaviorProfile.new.record_sensitive_path "/home/user/.ssh").record_outbound_connection
        "example.com").is_suspicious = true ∧
     (calculate_trust_score .Yellow
       ((BehaviorProfile.new.record_sensitive_path "/home/user/.ssh").record_outbound_connection
         "example.com")
       TrustScoringConfig.default).notes ≠ [] ∧
     (calculate_trust_score .Yellow
       ((BehaviorProfile.new.record_sensitive_path "/home/user/.ssh").record_outbound_connection
         "example.com")
       TrustScoringConfig.default).score = 72) := by
  decide

/-- C6 counterexample: `matches_pattern "aba" "ab*ba"` returns true —
the start anchor `ab` and end anchor `ba` are checked independently and
overlap in the name — although `aba` does not glob-match `ab*ba` (any
match needs at least 4 characters). -/
theorem matches_pattern_overlap_cex :
    matches_pattern "aba" "ab*ba" = true ∧
    globMatch ("ab*ba".toList.map Char.toLower) ("aba".toList.map Char.toLower) = false := by
  decide

/-- Unfolding `splitOnStar` over a cons, given the split of the tail. -/
theorem splitOnStar_cons (c : Char) (cs : List Char) (p : List Char)
    (ps : List (List Char)) (hs : splitOnStar cs = p :: ps) :
    splitOnStar (c :: cs) = if c = '*' then [] :: p :: ps else (c :: p) :: ps := by
  rw [splitOnStar, hs]

/-- `splitOnStar` always yields at least one part. -/
theorem splitOnStar_ne_nil (l : List Char) : splitOnStar l ≠ [] := by
  cases l with
  | nil => simp [splitOnStar]
  | cons c cs =>
    rw [splitOnStar]
    cases splitOnStar cs with
    | nil => simp
    | cons p ps =>
      by_cases hc : c = '*' <;> simp [hc]

/-- Joining the star-separated parts recovers the pattern. -/
theorem joinStar_splitOnStar (l : List Char) : joinStar (splitOnStar l) = l := by
  induction l with
  | nil => rfl
  | cons c cs ih =>
    obtain ⟨p, ps, hs⟩ : ∃ p ps, splitOnStar cs = p :: ps := by
      cases h' : splitOnStar cs with
      | nil => exact absurd h' (splitOnStar_ne_nil cs)
      | cons p ps => exact ⟨p, ps, rfl⟩
    rw [splitOnStar_cons c cs p ps hs]
    rw [hs] at ih
    by_cases hc : c = '*'
    · rw [if_pos hc, joinStar, List.nil_append, ih, hc]
    · rw [if_neg hc]
      cases ps with
      | nil =>
        rw [joinStar] at ih ⊢
        rw [ih]
      | cons q ps' =>
        rw [joinStar, List.cons_append]
        rw [joinStar] at ih
        rw [ih]

/-- No part of `splitOnStar` contains a star. -/
theorem star_not_mem_splitOnStar (l : List Char) :
    ∀ part ∈ splitOnStar l, '*' ∉ part := by
  induction l with
  | nil =>
    intro part hp
    simp [splitOnStar] at hp
    simp [hp]
  | cons c cs ih =>
    intro part hp
    obtain ⟨p, ps, hs⟩ : ∃ p ps, splitOnStar cs = p :: ps := by
      cases h' : splitOnStar cs with
      | nil => exact absurd h' (splitOnStar_ne_nil cs)
      | cons p ps => exact ⟨p, ps, rfl⟩
    rw [splitOnStar_cons c cs p ps hs] at hp
    by_cases hc : c = '*'
    · rw [if_pos hc] at hp
      rcases List.mem_cons.1 hp with rfl | hp'
      · simp
      · exact ih part (hs ▸ hp')
    · rw [if_neg hc] at hp
      rcases List.mem_cons.1 hp with rfl | hp'
      · intro hmem
        rcases List.mem_cons.1 hmem with h | h
        · exact hc h.symm
        · exact ih p (hs ▸ List.mem_cons_self p ps) h
      · exact ih part (hs ▸ List.mem_cons_of_mem p hp')

/-- A singleton part list means the pattern had no star and starts
with its (non-star) first character. -/
theorem splitOnStar_singleton (d : Char) (cs : List Char) (p : List Char)
    (h : splitOnStar (d :: cs) = [p]) : ∃ t, p = d :: t ∧ d ≠ '*' := by
  obtain ⟨q, qs, hs⟩ : ∃ q qs, splitOnStar cs = q :: qs := by
    cases h' : splitOnStar cs with
    | nil => exact absurd h' (splitOnStar_ne_nil cs)
    | cons q qs => exact ⟨q, qs, rfl⟩
  rw [splitOnStar_cons d cs q qs hs] at h
  by_cases hc : d = '*'
  · rw [if_pos hc] at h
    exact absurd h (by simp)
  · rw [if_neg hc] at h
    refine ⟨q, ?_, hc⟩
    simp at h
    exact h.1.symm

/-- The last part of `splitOnStar` is empty exactly when the pattern
ends with a star. -/
theorem splitOnStar_getLast (l : List Char) (hne : l ≠ []) :
    ((splitOnStar l).getLast? = some [] ↔ l.getLast? = some '*') := by
  induction l with
  | nil => exact absurd rfl hne
  | cons c cs ih =>
    cases cs with
    | nil =>
      rw [splitOnStar, splitOnStar]
      by_cases hc : c = '*'
      · simp [hc]
      · simp [hc]
    | cons d cs' =>
      have ihne := ih (by simp)
      obtain ⟨p, ps, hs⟩ : ∃ p ps, splitOnStar (d :: cs') = p :: ps := by
        cases h' : splitOnStar (d :: cs') with
        | nil => exact absurd h' (splitOnStar_ne_nil _)
        | cons p ps => exact ⟨p, ps, rfl⟩
      rw [splitOnStar_cons c (d :: cs') p ps hs]
      rw [hs] at ihne
      have hlast_cs : (c :: d :: cs').getLast? = (d :: cs').getLast? :=
        List.getLast?_cons_cons ..
      by_cases hc : c = '*'
      · rw [if_pos hc, hlast_cs, ← ihne]
        exact ⟨fun h => by simpa [List.getLast?_cons_cons] using h,
               fun h => by simpa [List.getLast?_cons_cons] using h⟩
      · rw [if_neg hc, hlast_cs, ← ihne]
        cases ps with
        | nil =>
          rcases splitOnStar_singleton d cs' p hs with ⟨t, rfl, _⟩
          simp
        | cons q ps' =>
          simp [List.getLast?_cons_cons]

/-- A star-free pattern glob-matches exactly the name equal to it. -/
theorem globMatch_starfree : ∀ (p : List Char), '*' ∉ p →
    ∀ n, (globMatch p n = true ↔ n = p) := by
  intro p
  induction p with
  | nil =>
    intro _ n
    simp [globMatch, List.isEmpty_iff]
  | cons c ps ih =>
    intro hp n
    have hc : c ≠ '*' := fun h => hp (h ▸ List.mem_cons_self c ps)
    have hps : '*' ∉ ps := fun h => hp (List.mem_cons_of_mem _ h)
    cases n with
    | nil => simp [globMatch, hc]
    | cons x xs =>
      simp only [globMatch, if_neg hc, Bool.and_eq_true, decide_eq_true_eq]
      rw [ih hps xs]
      constructor
      · rintro ⟨h1, h2⟩
        rw [← h1, h2]
      · intro h
        injection h with h1 h2
        exact ⟨h1.symm, h2⟩

/-- A star-free prefix of the pattern peels off the same prefix of the
name. -/
theorem globMatch_append_starfree : ∀ (p : List Char), '*' ∉ p →
    ∀ (rest n : List Char), globMatch (p ++ rest) n = true →
      ∃ m, n = p ++ m ∧ globMatch rest m = true := by
  intro p
  induction p with
  | nil => intro _ rest n h; exact ⟨n, rfl, h⟩
  | cons c ps ih =>
    intro hp rest n h
    have hc : c ≠ '*' := fun h' => hp (h' ▸ List.mem_cons_self c ps)
    have hps : '*' ∉ ps := fun h' => hp (List.mem_cons_of_mem _ h')
    cases n with
    | nil =>
      rw [List.cons_append] at h
      simp [globMatch, hc] at h
    | cons x xs =>
      rw [List.cons_append] at h
      simp only [globMatch, if_neg hc, Bool.and_eq_true, decide_eq_true_eq] at h
      rcases h with ⟨hcx, h2⟩
      rcases ih hps rest xs h2 with ⟨m, rfl, hm⟩
      exact ⟨m, by rw [← hcx, List.cons_append], hm⟩

/-- A leading star peels off an arbitrary gap. -/
theorem globMatch_star_elim (ps : List Char) (n : List Char)
    (h : globMatch ('*' :: ps) n = true) :
    ∃ g m, n = g ++ m ∧ globMatch ps m = true := by
  rw [globMatch.eq_def] at h
  dsimp only at h
  rw [if_pos rfl] at h
  rcases List.any_eq_true.1 h with ⟨i, _, hm⟩
  exact ⟨n.take i, n.drop i, (List.take_append_drop i n).symm, hm⟩

/-- A glob match of the joined pattern yields the parts decomposition. -/
theorem glob_to_joinStar : ∀ (parts : List (List Char)),
    (∀ part ∈ parts, '*' ∉ part) → ∀ n, parts ≠ [] →
      globMatch (joinStar parts) n = true → JoinStar parts n := by
  intro parts
  induction parts with
  | nil => intro _ n h; exact absurd rfl h
  | cons p rest ih =>
    intro hp n _ hg
    cases rest with
    | nil =>
      rw [joinStar] at hg
      exact (globMatch_starfree p (hp p (List.mem_cons_self p _)) n).1 hg
    | cons q rs =>
      rw [joinStar] at hg
      rcases globMatch_append_starfree p (hp p (List.mem_cons_self p _)) _ n hg with
        ⟨m, rfl, hm⟩
      rcases globMatch_star_elim (joinStar (q :: rs)) m hm with ⟨g, m2, rfl, hm2⟩
      exact ⟨g, m2, by rw [List.append_assoc],
        ih (fun part hpart => hp part (List.mem_cons_of_mem _ hpart)) m2 (by simp) hm2⟩

/-- `findSub` finds an occurrence no later than any given one. -/
theorem findSub_leftmost (pat : List Char) : ∀ (hay : List Char) (j : Nat),
    pat.isPrefixOf (hay.drop j) = true →
    ∃ i, findSub hay pat = some i ∧ i ≤ j ∧ pat.isPrefixOf (hay.drop i) = true := by
  intro hay
  induction hay with
  | nil =>
    intro j h
    rw [List.drop_nil] at h
    exact ⟨0, by rw [findSub, if_pos h], Nat.zero_le j, by simpa using h⟩
  | cons x t ih =>
    intro j h
    by_cases h0 : pat.isPrefixOf (x :: t) = true
    · exact ⟨0, by rw [findSub, if_pos h0], Nat.zero_le j, by simpa using h0⟩
    · cases j with
      | zero =>
        rw [List.drop_zero] at h
        exact absurd h h0
      | succ j' =>
        rw [List.drop_succ_cons] at h
        rcases ih j' h with ⟨i, hf, hle, hpre⟩
        refine ⟨i + 1, ?_, Nat.succ_le_succ hle, ?_⟩
        · rw [findSub, if_neg h0, hf]
          rfl
        · rw [List.drop_succ_cons]
          exact hpre

/-- The last element of a non-empty list of empty lists is `[]`. -/
theorem getLast?_all_empty : ∀ (l : List (List Char)), l ≠ [] →
    l.all (·.isEmpty) = true → l.getLast? = some [] := by
  intro l
  induction l with
  | nil => intro h; exact absurd rfl h
  | cons x rest ih =>
    intro _ hall
    rw [List.all_cons, Bool.and_eq_true] at hall
    cases rest with
    | nil => simp [List.isEmpty_iff.1 hall.1]
    | cons y rs =>
      rw [List.getLast?_cons_cons]
      exact ih (by simp) hall.2

/-- Completeness of the wildcard loop: if the remaining name suffix
contains a parts decomposition (after an arbitrary gap), the loop
accepts. `seen ∨ startsStar` rules the start-anchor branch out, and the
`endsStar` invariant ties the flag to the last part being empty. -/
theorem matchGo_complete (ss es : Bool) (N : List Char) :
    ∀ (ps : List (List Char)) (seen : Bool) (pos : Nat) (m : List Char),
      (seen = true ∨ ss = true) →
      (ps ≠ [] → (es = true ↔ ps.getLast? = some [])) →
      (∃ g, N.drop pos = g ++ m) →
      JoinStar ps m →
      matchGo ss es N ps seen pos = true := by
  intro ps
  induction ps with
  | nil => intro seen pos m _ _ _ _; rfl
  | cons part rest ih =>
    intro seen pos m hseen hlast hdrop hJ
    rw [matchGo]
    by_cases hpe : part.isEmpty = true
    · rw [if_pos hpe]
      have hpnil : part = [] := List.isEmpty_iff.1 hpe
      subst hpnil
      cases rest with
      | nil => rfl
      | cons q rs =>
        rcases hJ with ⟨g2, m2, hm, hJ2⟩
        rcases hdrop with ⟨g, hg⟩
        refine ih seen pos m2 hseen ?_ ⟨g ++ g2, ?_⟩ hJ2
        · intro _
          have h0 := hlast (by simp)
          rwa [List.getLast?_cons_cons] at h0
        · rw [hg, hm]
          simp [List.append_assoc]
    · rw [if_neg hpe]
      have hpne : part ≠ [] := fun h => hpe (by simp [h])
      have hb2 : (!seen && !ss) = false := by
        rcases hseen with h | h <;> simp [h]
      rw [hb2, if_neg Bool.false_ne_true]
      by_cases hb3 : (rest.all (·.isEmpty) && !es) = true
      · rw [if_pos hb3]
        rw [Bool.and_eq_true] at hb3
        rcases hb3 with ⟨hall, hnes⟩
        cases rest with
        | nil =>
          have hm : m = part := hJ
          rcases hdrop with ⟨g, hg⟩
          rw [List.isSuffixOf_iff_suffix]
          exact ⟨N.take pos ++ g,
            by rw [List.append_assoc, ← hm, ← hg, List.take_append_drop]⟩
        | cons q rs =>
          exfalso
          have hqlast : (q :: rs).getLast? = some [] := getLast?_all_empty _ (by simp) hall
          have hes : es = true := (hlast (by simp)).2
            (by rw [List.getLast?_cons_cons]; exact hqlast)
          rw [hes] at hnes
          exact Bool.noConfusion hnes
      · rw [if_neg hb3]
        cases rest with
        | nil =>
          exfalso
          have hes : es = true := by
            cases he : es with
            | true => rfl
            | false =>
              exact absurd (by simp [he] :
                (([] : List (List Char)).all (·.isEmpty) && !es) = true) hb3
          have hplast := (hlast (by simp)).1 hes
          simp at hplast
          exact hpne hplast
        | cons q rs =>
          rcases hJ with ⟨g2, m2, hm, hJ2⟩
          rcases hdrop with ⟨g, hg⟩
          have hoccur : part.isPrefixOf ((N.drop pos).drop g.length) = true := by
            rw [hg, List.drop_left, hm, List.append_assoc]
            exact List.isPrefixOf_iff_prefix.2 (List.prefix_append part _)
          rcases findSub_leftmost part (N.drop pos) g.length hoccur with ⟨i, hf, hile, _⟩
          rw [hf]
          refine ih true (pos + i + part.length) m2 (Or.inl rfl) ?_ ?_ hJ2
          · intro _
            have h0 := hlast (by simp)
            rwa [List.getLast?_cons_cons] at h0
          · refine ⟨(g ++ (part ++ g2)).drop (i + part.length), ?_⟩
            have h1 : N.drop (pos + i + part.length) =
                (N.drop pos).drop (i + part.length) := by
              rw [List.drop_drop, Nat.add_assoc]
            rw [h1, hg, hm, ← List.append_assoc, ← List.append_assoc,
              List.drop_append_eq_append_drop]
            have hz : i + part.length - (g ++ (part ++ g2)).length = 0 := by
              simp only [List.length_append]
              omega
            rw [List.append_assoc, hz, List.drop_zero]

/-- Completeness at the top-level call of `matches_pattern`'s wildcard
branch: a parts decomposition of the whole name makes `matchGo`
accept, with the anchor booleans computed from the pattern text. -/
theorem matchGo_complete_start (P N : List Char) (hstar : P.contains '*' = true)
    (hJ : JoinStar (splitOnStar P) N) :
    matchGo (decide (P.head? = some '*')) (decide (P.getLast? = some '*'))
      N (splitOnStar P) false 0 = true := by
  cases P with
  | nil => simp [List.contains] at hstar
  | cons c cs =>
    obtain ⟨p, ps, hs⟩ : ∃ p ps, splitOnStar cs = p :: ps := by
      cases h' : splitOnStar cs with
      | nil => exact absurd h' (splitOnStar_ne_nil cs)
      | cons p ps => exact ⟨p, ps, rfl⟩
    have hsplit := splitOnStar_cons c cs p ps hs
    have hlastinv : splitOnStar (c :: cs) ≠ [] →
        (decide ((c :: cs).getLast? = some '*') = true ↔
          (splitOnStar (c :: cs)).getLast? = some []) := by
      intro _
      rw [decide_eq_true_eq]
      exact (splitOnStar_getLast (c :: cs) (by simp)).symm
    by_cases hc : c = '*'
    · have hss : decide ((c :: cs).head? = some '*') = true := by simp [hc]
      exact matchGo_complete _ _ N (splitOnStar (c :: cs)) false 0 N
        (Or.inr hss) hlastinv ⟨[], by simp⟩ hJ
    · rw [hsplit, if_neg hc] at hJ ⊢
      rw [matchGo]
      rw [if_neg (show ¬((c :: p).isEmpty = true) by simp)]
      rw [if_pos (show (!false && !decide ((c :: cs).head? = some '*')) = true by
        simp [hc])]
      cases ps with
      | nil =>
        have hN : N = c :: p := hJ
        rw [if_pos (List.isPrefixOf_iff_prefix.2 (hN ▸ List.prefix_refl _))]
        rfl
      | cons q rs =>
        rcases hJ with ⟨g, m2, hm, hJ2⟩
        have hpref : (c :: p).isPrefixOf N = true := by
          rw [hm, List.append_assoc]
          exact List.isPrefixOf_iff_prefix.2 (List.prefix_append _ _)
        rw [if_pos hpref]
        refine matchGo_complete _ _ N (q :: rs) true (c :: p).length m2
          (Or.inl rfl) ?_ ⟨g, ?_⟩ hJ2
        · intro _
          have h0 := hlastinv (by rw [hsplit, if_neg hc]; simp)
          rw [hsplit, if_neg hc, List.getLast?_cons_cons] at h0
          exact h0
        · rw [hm, List.append_assoc, List.drop_left]

/-- C6 (amended): every lowercased glob match is accepted by
`matches_pattern` (the spec's semantics imply the code's answer), and
for star-free patterns the code matches exactly the equal lowercased
name. The converse of the first part fails: the code checks the start
and end anchors independently, so overlapping anchors are accepted
(see the counterexample with name `aba`, pattern `ab*ba`). -/
theorem matches_pattern_glob :
    (∀ name pattern : String,
      globMatch (pattern.toList.map Char.toLower) (name.toList.map Char.toLower) = true →
      matches_pattern name pattern = true) ∧
    (∀ name pattern : String,
      (pattern.toList.map Char.toLower).contains '*' = false →
      (matches_pattern name pattern = true ↔
        name.toList.map Char.toLower = pattern.toList.map Char.toLower)) := by
  constructor
  · intro name pattern hg
    rw [matches_pattern]
    by_cases hstar : (pattern.toList.map Char.toLower).contains '*' = true
    · rw [hstar, Bool.not_true, if_neg Bool.false_ne_true]
      have hJ := glob_to_joinStar (splitOnStar (pattern.toList.map Char.toLower))
        (star_not_mem_splitOnStar _) (name.toList.map Char.toLower)
        (splitOnStar_ne_nil _)
        (by rw [joinStar_splitOnStar]; exact hg)
      exact matchGo_complete_start _ _ hstar hJ
    · have hfalse : (pattern.toList.map Char.toLower).contains '*' = false := by
        cases h : (pattern.toList.map Char.toLower).contains '*' with
        | true => exact absurd h hstar
        | false => rfl
      have hns : '*' ∉ pattern.toList.map Char.toLower := by
        intro hmem
        have h2 : (pattern.toList.map Char.toLower).contains '*' = true :=
          List.elem_eq_true_of_mem hmem
        rw [hfalse] at h2
        exact Bool.noConfusion h2
      have hNP := (globMatch_starfree _ hns _).1 hg
      rw [hfalse, Bool.not_false, if_pos rfl]
      exact decide_eq_true hNP
  · intro name pattern hfalse
    rw [matches_pattern, hfalse, Bool.not_false, if_pos rfl]
    exact ⟨of_decide_eq_true, decide_eq_true⟩

/-- Witness for C6: `wine64` glob-matches `wine*`, so the code
accepts it. -/
theorem matches_pattern_glob_witness : matches_pattern "wine64" "wine*" = true :=
  matches_pattern_glob.1 "wine64" "wine*" (by decide)

end Winewarden
